import Mathlib

/-!
Verification of the Aadhaar data-analysis repository.

The repository aggregates three tabular datasets (biometric updates,
demographic updates, enrollments) keyed by state, and runs statistical
anomaly detectors over the aggregated per-state metrics.  This file embeds
the aggregation pipeline and the detectors (`aadhaar_data_analysis.py`,
`run_advanced_analytics.py`, `advanced_analytics.py`) as executable Lean
definitions over `ℚ` and proves the specified properties about them.

Conventions: pandas/NumPy float arithmetic is modelled by exact rational
arithmetic; NaN/±inf results of divisions are modelled explicitly where a
code path depends on them (see `PChange`); an uncaught Python exception is
modelled by an `Option` result being `none`.
-/

/-- States are the grouping key of every aggregation (`groupby('state')`).
We model the identifier as a natural number. -/
abbrev Region := ℕ

/-- One row of the biometric-update dataset (columns used by the analyses:
`state`, `bio_age_5_17`, `bio_age_17_`). -/
structure BioRow where
  state : Region
  bio_age_5_17 : ℚ
  bio_age_17_ : ℚ
deriving DecidableEq

/-- One row of the demographic-update dataset (`state`, `demo_age_5_17`,
`demo_age_17_`). -/
structure DemoRow where
  state : Region
  demo_age_5_17 : ℚ
  demo_age_17_ : ℚ
deriving DecidableEq

/-- One row of the enrollment dataset (`state`, `age_0_5`, `age_5_17`,
`age_18_greater`). -/
structure EnrollRow where
  state : Region
  age_0_5 : ℚ
  age_5_17 : ℚ
  age_18_greater : ℚ
deriving DecidableEq

/-- The distinct keys of `rows.groupby(key)`, in order of first appearance. -/
def keysOf {ρ : Type} (key : ρ → Region) (rows : List ρ) : List Region :=
  (rows.map key).dedup

/-- `groupby(key)[col].sum()` evaluated at one group key `s`. -/
def colSum {ρ : Type} (key : ρ → Region) (col : ρ → ℚ) (rows : List ρ)
    (s : Region) : ℚ :=
  ((rows.filter (fun r => key r == s)).map col).sum

/-- Association-list lookup on a region-indexed table (the semantics of
selecting the row of a region-indexed DataFrame). -/
def assocFind {α : Type} (s : Region) : List (Region × α) → Option α
  | [] => none
  | (k, v) :: rest => if k = s then some v else assocFind s rest

/-- `biometric_data.groupby('state').agg({'bio_age_5_17': 'sum',
'bio_age_17_': 'sum'})` — one row per state present in the dataset. -/
def bioAgg (rows : List BioRow) : List (Region × ℚ × ℚ) :=
  (keysOf BioRow.state rows).map (fun s =>
    (s, colSum BioRow.state BioRow.bio_age_5_17 rows s,
        colSum BioRow.state BioRow.bio_age_17_ rows s))

/-- `demographic_data.groupby('state').agg(...)`. -/
def demoAgg (rows : List DemoRow) : List (Region × ℚ × ℚ) :=
  (keysOf DemoRow.state rows).map (fun s =>
    (s, colSum DemoRow.state DemoRow.demo_age_5_17 rows s,
        colSum DemoRow.state DemoRow.demo_age_17_ rows s))

/-- `enrollment_data.groupby('state').agg(...)`. -/
def enrollAgg (rows : List EnrollRow) : List (Region × ℚ × ℚ × ℚ) :=
  (keysOf EnrollRow.state rows).map (fun s =>
    (s, colSum EnrollRow.state EnrollRow.age_0_5 rows s,
        colSum EnrollRow.state EnrollRow.age_5_17 rows s,
        colSum EnrollRow.state EnrollRow.age_18_greater rows s))

/-- One row of the merged region-indexed metric table produced by
`pd.merge(..., how='outer')` of the three aggregates followed by
`.fillna(0)` (`ratio_efficiency_analysis`, `_create_state_performance_data`). -/
structure MergedRow where
  state : Region
  bio_age_5_17 : ℚ
  bio_age_17_ : ℚ
  demo_age_5_17 : ℚ
  demo_age_17_ : ℚ
  age_0_5 : ℚ
  age_5_17 : ℚ
  age_18_greater : ℚ
deriving DecidableEq

/-- Index of the outer merge: the union of the three aggregates' state
indexes, each state once. -/
def mergedStates (bio : List BioRow) (demo : List DemoRow)
    (enroll : List EnrollRow) : List Region :=
  (keysOf BioRow.state bio ++ keysOf DemoRow.state demo ++
    keysOf EnrollRow.state enroll).dedup

/-- The merged metric table: two outer merges on the state index followed by
`.fillna(0)` — a state absent from a dataset gets `0` in that dataset's
columns (`aadhaar_data_analysis.py` lines 199–201). -/
def mergedTable (bio : List BioRow) (demo : List DemoRow)
    (enroll : List EnrollRow) : List MergedRow :=
  (mergedStates bio demo enroll).map (fun s =>
    let b := (assocFind s (bioAgg bio)).getD (0, 0)
    let d := (assocFind s (demoAgg demo)).getD (0, 0)
    let e := (assocFind s (enrollAgg enroll)).getD (0, 0, 0)
    ⟨s, b.1, b.2, d.1, d.2, e.1, e.2.1, e.2.2⟩)

/-- `update_to_enroll_ratio = (total_bio + total_demo) / (total_enroll + 1)`
(`ratio_efficiency_analysis`, line 206). -/
def updateEnrollRatio (totalBio totalDemo totalEnroll : ℚ) : ℚ :=
  (totalBio + totalDemo) / (totalEnroll + 1)

/-- The `update_to_enroll_ratio > 2.0` flagging rule (line 209). -/
def highUpdateFlag (totalBio totalDemo totalEnroll : ℚ) : Bool :=
  decide (2 < updateEnrollRatio totalBio totalDemo totalEnroll)

/-- Population mean of a metric column. -/
def listMean (l : List ℚ) : ℚ := l.sum / l.length

/-- Population variance (`ddof=0`, as used by `scipy.stats.zscore`). -/
def popVar (l : List ℚ) : ℚ :=
  ((l.map (fun x => (x - listMean l) ^ 2)).sum) / l.length

/-- The Z-score detector (`anomaly_detection`, lines 139–142):
`np.abs(stats.zscore(v)) > 2` with `zscore v = (v - mean) / std`,
`std = √(popVar)`.  Since both sides are nonnegative, for `std > 0` the
comparison `|v - mean| / std > 2` is equivalent to `(v - mean)² > 4·var`,
which is how we phrase the filter over `ℚ`; when `std = 0` every z-score is
NaN in NumPy and every comparison `NaN > 2` is `False`, so nothing is
flagged — modelled by the `popVar l ≠ 0` conjunct. -/
def zscoreFlags (l : List ℚ) : List ℚ :=
  l.filter (fun x =>
    decide (popVar l ≠ 0) && decide (4 * popVar l < (x - listMean l) ^ 2))

/-- `Series.quantile(q)` with the default linear interpolation: on the
ascending sort `s` of the data, with `h = (n-1)·q`, the quantile is
`s[⌊h⌋] + (h - ⌊h⌋)·(s[⌊h⌋+1] - s[⌊h⌋])`. -/
def quantileLinear (l : List ℚ) (q : ℚ) : ℚ :=
  let s := l.insertionSort (· ≤ ·)
  let h : ℚ := ((s.length - 1 : ℕ) : ℚ) * q
  let i : ℕ := (⌊h⌋).toNat
  let lo := s.getD i 0
  let hi := s.getD (i + 1) lo
  lo + (h - (i : ℚ)) * (hi - lo)

/-- First quartile of the metric distribution (`quantile(0.25)`, line 157). -/
def quartile1 (l : List ℚ) : ℚ := quantileLinear l (1 / 4)

/-- Third quartile (`quantile(0.75)`, line 158). -/
def quartile3 (l : List ℚ) : ℚ := quantileLinear l (3 / 4)

/-- The IQR detector (`anomaly_detection`, lines 157–165): flag values below
`Q1 - 1.5·IQR` or above `Q3 + 1.5·IQR` where `IQR = Q3 - Q1`. -/
def iqrOutliers (l : List ℚ) : List ℚ :=
  let q1 := quartile1 l
  let q3 := quartile3 l
  let iqr := q3 - q1
  l.filter (fun x =>
    decide (x < q1 - 3 / 2 * iqr) || decide (q3 + 3 / 2 * iqr < x))

/-- `K_range = range(2, min(11, len(X)//2))` from
`technique_3_kmeans_clustering` (`run_advanced_analytics.py`, line 458):
the candidate cluster counts `2, …, min(11, ⌊n/2⌋) - 1`, empty when
`min(11, ⌊n/2⌋) ≤ 2`. -/
def kRange (n : ℕ) : List ℕ :=
  List.range' 2 (min 11 (n / 2) - 2)

/-- Maximum of a list of rationals (`none` on the empty list). -/
def listMax : List ℚ → Option ℚ
  | [] => none
  | x :: xs =>
    match listMax xs with
    | none => some x
    | some m => some (max x m)

/-- `np.argmax` over a Python list: index of the first occurrence of the
maximum; NumPy raises `ValueError` on an empty sequence, modelled by
`none`. -/
def npArgmax (l : List ℚ) : Option ℕ :=
  (listMax l).map (fun m => l.indexOf m)

/-- `optimal_k = K_range[np.argmax(silhouette_scores)]` (line 468), with
`silhouette_scores = [silhouette(k) for k in K_range]` abstracted by the
score function `sil`.  `none` models the `ValueError` that `np.argmax`
raises when `K_range` is empty (the source has no insufficient-regions
guard around this step). -/
def optimalK (n : ℕ) (sil : ℕ → ℚ) : Option ℕ :=
  (npArgmax ((kRange n).map sil)).bind (fun i => (kRange n).get? i)

/-- The K-selection step of the clustering engine for `n` regions: the
chosen cluster count, or `none` when the selection raises. -/
def technique3KSelect (n : ℕ) (sil : ℕ → ℚ) : Option ℕ :=
  optimalK n sil

/-- A fitted ARIMA model, abstracted to what the driver consumes: its
Akaike information criterion and, for each future step, the forecast mean
and standard error of the Gaussian predictive distribution. -/
structure FittedModel where
  aic : ℚ
  mean : ℕ → ℚ
  se : ℕ → ℚ

/-- The `(p, d, q)` grid of `technique_2_arima_forecasting`
(`run_advanced_analytics.py` lines 288–290): `p ∈ range(3)`, `d ∈ range(2)`,
`q ∈ range(3)`. -/
def arimaGrid : List (ℕ × ℕ × ℕ) :=
  (List.range 3).flatMap (fun p =>
    (List.range 2).flatMap (fun d =>
      (List.range 3).map (fun q => (p, d, q))))

/-- One step of the best-AIC search: keep the incumbent unless this
combination converges (`fit pdq = some m`) with a strictly lower AIC
(`if fitted.aic < best_aic`); a combination that fails to fit is skipped
(`except: continue`). -/
def bestStep (fit : ℕ × ℕ × ℕ → Option FittedModel)
    (best : Option FittedModel) (pdq : ℕ × ℕ × ℕ) : Option FittedModel :=
  match fit pdq with
  | none => best
  | some m =>
    match best with
    | none => some m
    | some b => if m.aic < b.aic then some m else some b

/-- The grid search of `technique_2_arima_forecasting`: the model with the
lowest AIC among the converging combinations (`best_aic = np.inf` start,
update on strict improvement), `none` when no combination converges. -/
def bestModel (fit : ℕ × ℕ × ℕ → Option FittedModel) : Option FittedModel :=
  arimaGrid.foldl (bestStep fit) none

/-- `forecast_steps = 6` (line 305). -/
def forecastSteps : ℕ := 6

/-- One forecast period: point estimate with its confidence bounds. -/
structure ForecastEntry where
  lower : ℚ
  point : ℚ
  upper : ℚ
deriving DecidableEq

/-- The normal quantile used for a 95% confidence interval. -/
def confZ : ℚ := 196 / 100

/-- `best_model.forecast(steps=6)` together with
`best_model.get_forecast(steps=6).conf_int()` (lines 306–307): statsmodels
returns the predictive means and the symmetric Gaussian interval
`mean ± z·se` around them at the 95% level. -/
def forecastWithCI (m : FittedModel) : List ForecastEntry :=
  (List.range forecastSteps).map (fun i =>
    ⟨m.mean i - confZ * m.se i, m.mean i, m.mean i + confZ * m.se i⟩)

/-- Outcome of the trend/forecast module. -/
inductive ArimaOutcome where
  | insufficientData
  | noModel
  | forecast (fc : List ForecastEntry)
deriving DecidableEq

/-- `technique_2_arima_forecasting` / `arima_forecasting` control flow:
`if len(ts_data) < 10: print("Insufficient data"); return` (lines 268–270),
else grid-search; if no combination converges report no suitable model,
else forecast 6 periods with confidence intervals.  The external ARIMA
fitter is the parameter `fit`. -/
def technique2Arima (ts : List ℚ) (fit : ℕ × ℕ × ℕ → Option FittedModel) :
    ArimaOutcome :=
  if ts.length < 10 then .insufficientData
  else
    match bestModel fit with
    | none => .noModel
    | some m => .forecast (forecastWithCI m)

/-- `state_performance['total_bio']` of `spatial_comparison` (lines 235–239):
per-state sum of the two biometric columns. -/
def stateTotalsBio (rows : List BioRow) : List (Region × ℚ) :=
  (keysOf BioRow.state rows).map (fun s =>
    (s, colSum BioRow.state BioRow.bio_age_5_17 rows s +
        colSum BioRow.state BioRow.bio_age_17_ rows s))

/-- `bottom_10_percent = int(len(state_performance) * 0.1)` (line 243);
for the region counts at hand `int(n * 0.1) = n / 10` exactly. -/
def bottomTenPercent (n : ℕ) : ℕ := n / 10

/-- `nsmallest(k, 'total_bio')`: the `k` rows with the smallest metric value
(all rows when fewer than `k` exist) — ascending stable sort, take `k`. -/
def nsmallestBy (k : ℕ) (l : List (Region × ℚ)) : List (Region × ℚ) :=
  (l.insertionSort (fun a b => a.2 ≤ b.2)).take k

/-- `underperforming = state_performance.nsmallest(max(3, bottom_10_percent),
'total_bio')` (line 244). -/
def underperforming (rows : List BioRow) : List (Region × ℚ) :=
  nsmallestBy (max 3 (bottomTenPercent (stateTotalsBio rows).length))
    (stateTotalsBio rows)

/-- Value of a float expression that a pandas `pct_change` entry can take:
a finite number, NaN (first row of a group, or 0/0), or ±inf (x/0). -/
inductive PChange where
  | nan
  | posInf
  | negInf
  | val (q : ℚ)
deriving DecidableEq

/-- `(cur - prev) / prev` under IEEE float semantics: division by zero gives
NaN for `0/0` and a signed infinity otherwise. -/
def pctChange (prev cur : ℚ) : PChange :=
  if prev = 0 then
    if cur = 0 then .nan
    else if 0 < cur then .posInf
    else .negInf
  else .val ((cur - prev) / prev)

/-- `growth_rate` of one state's month-ordered `total_bio` series
(`trend_analysis`, line 113): `pct_change` yields NaN at the first month and
`(cur - prev)/prev` afterwards. -/
def growthRate (series : List ℚ) (i : ℕ) : PChange :=
  if i = 0 then .nan
  else pctChange (series.getD (i - 1) 0) (series.getD i 0)

/-- The abnormal-growth filter `(growth_rate > 2.0) | (growth_rate < -0.5)`
(lines 116–118) on one float value; comparisons with NaN are `False`, and
`+inf > 2.0`, `-inf < -0.5` are `True`. -/
def abnormalFlag : PChange → Bool
  | .nan => false
  | .posInf => true
  | .negInf => true
  | .val q => decide (2 < q) || decide (q < -(1 / 2))

/-- The month indices of one state's series flagged by `trend_analysis` as
abnormal growth. -/
def abnormalMonths (series : List ℚ) : List ℕ :=
  (List.range series.length).filter (fun i => abnormalFlag (growthRate series i))

/-! ### Helper lemmas -/

theorem listMax_eq_none_iff (l : List ℚ) : listMax l = none ↔ l = [] := by
  cases l with
  | nil => simp [listMax]
  | cons x xs =>
    simp only [listMax]
    cases h : listMax xs <;> simp

theorem listMax_mem {l : List ℚ} {m : ℚ} (h : listMax l = some m) : m ∈ l := by
  induction l generalizing m with
  | nil => simp [listMax] at h
  | cons x xs ih =>
    simp only [listMax] at h
    cases hx : listMax xs with
    | none => rw [hx] at h; simp at h; simp [h]
    | some m' =>
      rw [hx] at h
      simp at h
      rcases max_choice x m' with hc | hc <;> rw [hc] at h
      · simp [h]
      · exact List.mem_cons_of_mem _ (h ▸ ih hx)

theorem le_listMax {l : List ℚ} {m : ℚ} (h : listMax l = some m) :
    ∀ x ∈ l, x ≤ m := by
  induction l generalizing m with
  | nil => simp
  | cons y ys ih =>
    simp only [listMax] at h
    cases hy : listMax ys with
    | none =>
      rw [hy] at h; simp at h
      have : ys = [] := (listMax_eq_none_iff ys).mp hy
      subst this
      simp [h]
    | some m' =>
      rw [hy] at h
      simp at h
      intro x hx
      rcases List.mem_cons.mp hx with rfl | hx'
      · rw [← h]; exact le_max_left _ _
      · calc x ≤ m' := ih hy x hx'
          _ ≤ m := h ▸ le_max_right _ _

/-! ### Claim theorems -/

/-- C2: the ratio engine computes the update-to-enrollment ratio as
`(total_bio + total_demo) / (total_enroll + 1)`; for nonnegative enrollment
counts the denominator is nonzero, so no division by zero occurs; and for a
region with `total_enroll = 0`, `total_bio = 50`, `total_demo = 0` the ratio
is `50` and the `> 2.0` rule flags the region. -/
theorem ratio_engine_safe_denominator (b d e : ℚ) :
    updateEnrollRatio b d e = (b + d) / (e + 1) ∧
    (0 ≤ e → e + 1 ≠ 0) ∧
    updateEnrollRatio 50 0 0 = 50 ∧
    highUpdateFlag 50 0 0 = true := by
  refine ⟨rfl, fun he => by positivity, ?_, ?_⟩
  · norm_num [updateEnrollRatio]
  · norm_num [highUpdateFlag, updateEnrollRatio]

/-- Witness for `ratio_engine_safe_denominator` at `e = 0`. -/
theorem ratio_engine_safe_denominator_witness : (0 : ℚ) + 1 ≠ 0 :=
  (ratio_engine_safe_denominator 50 0 0).2.1 (by norm_num)

/-- C5 (amended): for every input whose candidate cluster-count range is
empty (fewer than 6 regions), `technique_3_kmeans_clustering` does not skip
with an insufficient-regions notice: the selection
`K_range[np.argmax(silhouette_scores)]` takes `np.argmax` of an empty
sequence, which raises `ValueError` (modelled by `none`), and no clustering
result is produced. -/
theorem kmeans_insufficient_regions_raises (n : ℕ) (sil : ℕ → ℚ)
    (h : n < 6) :
    kRange n = [] ∧ technique3KSelect n sil = none := by
  have hk : kRange n = [] := by
    have h2 : min 11 (n / 2) - 2 = 0 := by omega
    simp [kRange, h2]
  refine ⟨hk, ?_⟩
  simp [technique3KSelect, optimalK, npArgmax, hk, listMax]

/-- Witness for `kmeans_insufficient_regions_raises` at 4 regions. -/
theorem kmeans_insufficient_regions_raises_witness :
    kRange 4 = [] ∧ technique3KSelect 4 (fun _ => 0) = none :=
  kmeans_insufficient_regions_raises 4 (fun _ => 0) (by decide)

/-- C5 counterexample: with 5 regions the candidate range
`range(2, min(11, 5//2))` is empty and the K-selection step yields no
result (`np.argmax` of the empty silhouette list raises), refuting the
claim that the engine skips clustering with an
"insufficient regions for clustering" notice instead of raising. -/
theorem kmeans_five_regions_error :
    kRange 5 = [] ∧ technique3KSelect 5 (fun _ => 0) = none := by
  constructor
  · rfl
  · rfl

/-- C6 counterexample: for `region_count = 10` the claim's candidate range
reaches `min(10, ⌊10/2⌋) = 5` inclusive, but the code's
`range(2, min(11, 10//2))` stops at 4: `K = 5` is never evaluated. -/
theorem kmeans_candidate_range_off_by_one :
    5 = min 10 (10 / 2) ∧ kRange 10 = [2, 3, 4] ∧ 5 ∉ kRange 10 := by
  refine ⟨by decide, by decide, by decide⟩

/-- C7: the trend/forecast module short-circuits when the monthly series has
fewer than 10 observations: it returns the insufficient-data notice,
produces no forecast, and (being a total function) raises no exception. -/
theorem arima_insufficient_data (ts : List ℚ)
    (fit : ℕ × ℕ × ℕ → Option FittedModel) (h : ts.length < 10) :
    technique2Arima ts fit = .insufficientData := by
  simp [technique2Arima, h]

/-- Witness for `arima_insufficient_data` on a 5-point series. -/
theorem arima_insufficient_data_witness :
    technique2Arima [1, 2, 3, 4, 5] (fun _ => none) = .insufficientData :=
  arima_insufficient_data [1, 2, 3, 4, 5] (fun _ => none) (by decide)

/-- C6 (amended): for `n` regions the clustering engine evaluates candidate
cluster counts `K` for every integer from 2 up to `min(11, ⌊n/2⌋) - 1`
inclusive — one below the upper endpoint `min(10, ⌊n/2⌋)` stated by the
claim whenever `n ≤ 21` — and, when that range is nonempty, the selected
`K` (at which the final partition is refit once) is a candidate attaining
the maximal silhouette score. -/
theorem kmeans_candidates_and_selection (n : ℕ) (sil : ℕ → ℚ) :
    (∀ k, k ∈ kRange n ↔ 2 ≤ k ∧ k < min 11 (n / 2)) ∧
    (kRange n ≠ [] → ∃ k, technique3KSelect n sil = some k ∧ k ∈ kRange n ∧
      ∀ k₂ ∈ kRange n, sil k₂ ≤ sil k) := by
  constructor
  · intro k
    simp only [kRange, List.mem_range'_1]
    omega
  · intro hne
    set scores := (kRange n).map sil with hscores
    have hsne : scores ≠ [] := by
      simpa [hscores] using hne
    obtain ⟨m, hm⟩ : ∃ m, listMax scores = some m := by
      cases h : listMax scores with
      | none => exact absurd ((listMax_eq_none_iff scores).mp h) hsne
      | some m => exact ⟨m, rfl⟩
    have hmem : m ∈ scores := listMax_mem hm
    have hidx : scores.indexOf m < scores.length :=
      List.indexOf_lt_length.mpr hmem
    have hidx2 : scores.indexOf m < (kRange n).length := by
      simpa [hscores] using hidx
    refine ⟨(kRange n).get ⟨scores.indexOf m, hidx2⟩, ?_, List.get_mem _ _ hidx2, ?_⟩
    · have h1 : npArgmax scores = some (scores.indexOf m) := by
        simp [npArgmax, hm]
      simp only [technique3KSelect, optimalK, ← hscores, h1, Option.bind_some]
      exact List.get?_eq_get hidx2
    · intro k₂ hk₂
      have h2 : sil k₂ ≤ m := le_listMax hm _ (List.mem_map_of_mem sil hk₂)
      have h4 : scores.get ⟨scores.indexOf m, hidx⟩ = m := by
        simp
      have h5 : scores.get ⟨scores.indexOf m, hidx⟩ =
          sil ((kRange n).get ⟨scores.indexOf m, hidx2⟩) := by
        simp only [List.get_eq_getElem, hscores, List.getElem_map]
      rw [← h5, h4]
      exact h2

/-- Witness for `kmeans_candidates_and_selection` at 10 regions. -/
theorem kmeans_candidates_and_selection_witness :
    ∃ k, technique3KSelect 10 (fun j => (j : ℚ)) = some k ∧ k ∈ kRange 10 ∧
      ∀ k₂ ∈ kRange 10, ((k₂ : ℚ)) ≤ (k : ℚ) :=
  (kmeans_candidates_and_selection 10 (fun j => (j : ℚ))).2 (by decide)

theorem bestStep_isSome_of_fit {fit : ℕ × ℕ × ℕ → Option FittedModel}
    {pdq : ℕ × ℕ × ℕ} (h : (fit pdq).isSome) (acc : Option FittedModel) :
    (bestStep fit acc pdq).isSome := by
  obtain ⟨m, hm⟩ := Option.isSome_iff_exists.mp h
  cases acc with
  | none => simp [bestStep, hm]
  | some b => simp only [bestStep, hm]; split <;> simp

theorem bestStep_isSome_of_acc {fit : ℕ × ℕ × ℕ → Option FittedModel}
    {acc : Option FittedModel} (h : acc.isSome) (pdq : ℕ × ℕ × ℕ) :
    (bestStep fit acc pdq).isSome := by
  obtain ⟨b, hb⟩ := Option.isSome_iff_exists.mp h
  cases hf : fit pdq with
  | none => simp [bestStep, hf, hb]
  | some m => simp only [bestStep, hf, hb]; split <;> simp

theorem foldl_bestStep_isSome (fit : ℕ × ℕ × ℕ → Option FittedModel) :
    ∀ (l : List (ℕ × ℕ × ℕ)) (acc : Option FittedModel),
      ((∃ pdq ∈ l, (fit pdq).isSome) ∨ acc.isSome) →
      (l.foldl (bestStep fit) acc).isSome := by
  intro l
  induction l with
  | nil =>
    intro acc h
    rcases h with ⟨pdq, hmem, _⟩ | h
    · simp at hmem
    · simpa using h
  | cons x xs ih =>
    intro acc h
    simp only [List.foldl_cons]
    rcases h with ⟨pdq, hmem, hfit⟩ | h
    · rcases List.mem_cons.mp hmem with rfl | hmem'
      · exact ih _ (Or.inr (bestStep_isSome_of_fit hfit acc))
      · exact ih _ (Or.inl ⟨pdq, hmem', hfit⟩)
    · exact ih _ (Or.inr (bestStep_isSome_of_acc h x))

theorem foldl_bestStep_mem (fit : ℕ × ℕ × ℕ → Option FittedModel) :
    ∀ (l : List (ℕ × ℕ × ℕ)) (acc : Option FittedModel) (m : FittedModel),
      l.foldl (bestStep fit) acc = some m →
      acc = some m ∨ ∃ pdq ∈ l, fit pdq = some m := by
  intro l
  induction l with
  | nil =>
    intro acc m h
    exact Or.inl (by simpa using h)
  | cons x xs ih =>
    intro acc m h
    simp only [List.foldl_cons] at h
    rcases ih _ m h with hstep | ⟨pdq, hmem, hfit⟩
    · cases hfx : fit x with
      | none =>
        simp only [bestStep, hfx] at hstep
        exact Or.inl hstep
      | some m' =>
        cases acc with
        | none =>
          simp only [bestStep, hfx] at hstep
          exact Or.inr ⟨x, List.mem_cons_self x xs, by rw [hfx, hstep]⟩
        | some b =>
          simp only [bestStep, hfx] at hstep
          by_cases hlt : m'.aic < b.aic
          · rw [if_pos hlt] at hstep
            exact Or.inr ⟨x, List.mem_cons_self x xs, by rw [hfx, hstep]⟩
          · rw [if_neg hlt] at hstep
            exact Or.inl hstep
    · exact Or.inr ⟨pdq, List.mem_cons_of_mem _ hmem, hfit⟩

/-- C8: for every monthly series of at least 10 points whose grid search
finds at least one converging model, `technique_2_arima_forecasting`
returns a forecast of exactly `forecast_steps = 6` periods, and on each
period the lower confidence bound is at most the point estimate, which is
at most the upper bound (the interval is `mean ± z·se` with a nonnegative
standard error). -/
theorem arima_forecast_six_periods (ts : List ℚ)
    (fit : ℕ × ℕ × ℕ → Option FittedModel)
    (hlen : 10 ≤ ts.length)
    (hse : ∀ pdq m, fit pdq = some m → ∀ i, 0 ≤ m.se i)
    (hconv : ∃ pdq ∈ arimaGrid, (fit pdq).isSome) :
    ∃ fc, technique2Arima ts fit = .forecast fc ∧ fc.length = 6 ∧
      ∀ e ∈ fc, e.lower ≤ e.point ∧ e.point ≤ e.upper := by
  have hnl : ¬ ts.length < 10 := not_lt.mpr hlen
  have hsome : (bestModel fit).isSome :=
    foldl_bestStep_isSome fit arimaGrid none (Or.inl hconv)
  obtain ⟨m, hm⟩ := Option.isSome_iff_exists.mp hsome
  have hmse : ∀ i, 0 ≤ m.se i := by
    rcases foldl_bestStep_mem fit arimaGrid none m hm with hacc | ⟨pdq, _, hfit⟩
    · exact absurd hacc (by simp)
    · exact hse pdq m hfit
  refine ⟨forecastWithCI m, ?_, ?_, ?_⟩
  · simp [technique2Arima, hnl, hm]
  · simp [forecastWithCI, forecastSteps]
  · intro e he
    simp only [forecastWithCI, List.mem_map] at he
    obtain ⟨i, _, rfl⟩ := he
    have hz : (0 : ℚ) ≤ confZ * m.se i :=
      mul_nonneg (by norm_num [confZ]) (hmse i)
    constructor
    · simp only []
      linarith
    · simp only []
      linarith

/-- Witness for `arima_forecast_six_periods`: a 10-point series and a fitter
for which every grid combination converges to the same model. -/
theorem arima_forecast_six_periods_witness :
    ∃ fc, technique2Arima (List.replicate 10 (0 : ℚ))
        (fun _ => some ⟨0, fun _ => 100, fun _ => 1⟩) = .forecast fc ∧
      fc.length = 6 ∧ ∀ e ∈ fc, e.lower ≤ e.point ∧ e.point ≤ e.upper :=
  arima_forecast_six_periods (List.replicate 10 (0 : ℚ))
    (fun _ => some ⟨0, fun _ => 100, fun _ => 1⟩)
    (by decide)
    (by intro pdq m h i; cases h; norm_num)
    ⟨(0, 0, 0), by decide, rfl⟩

/-- C4: the IQR detector flags exactly the values lying below
`Q1 - 1.5·IQR` or above `Q3 + 1.5·IQR` (`IQR = Q3 - Q1`, quartiles with
pandas' linear interpolation), and on the metric list `[1,2,3,4,5,100]` it
flags exactly the value 100. -/
theorem iqr_detector (l : List ℚ) :
    (∀ x, x ∈ iqrOutliers l ↔ x ∈ l ∧
      (x < quartile1 l - 3 / 2 * (quartile3 l - quartile1 l) ∨
       quartile3 l + 3 / 2 * (quartile3 l - quartile1 l) < x)) ∧
    iqrOutliers [1, 2, 3, 4, 5, 100] = [100] := by
  constructor
  · intro x
    simp [iqrOutliers, List.mem_filter, decide_eq_true_eq, Bool.or_eq_true]
  · have h1 : quartile1 [1, 2, 3, 4, 5, 100] = 9 / 4 := by
      norm_num [quartile1, quantileLinear, List.insertionSort,
        List.orderedInsert]
    have h3 : quartile3 [1, 2, 3, 4, 5, 100] = 19 / 4 := by
      norm_num [quartile3, quantileLinear, List.insertionSort,
        List.orderedInsert, show ((3 : ℤ)).toNat = 3 from rfl]
    rw [iqrOutliers, h1, h3]
    norm_num [List.filter_cons, decide_eq_true_eq]

theorem popVar_nonneg (l : List ℚ) : 0 ≤ popVar l := by
  unfold popVar
  apply div_nonneg
  · apply List.sum_nonneg
    intro x hx
    obtain ⟨y, -, rfl⟩ := List.mem_map.mp hx
    positivity
  · exact Nat.cast_nonneg _

theorem two_lt_abs_div_sqrt_iff {y v : ℝ} (hv : 0 < v) :
    2 < |y| / Real.sqrt v ↔ 4 * v < y ^ 2 := by
  have hs : 0 < Real.sqrt v := Real.sqrt_pos.mpr hv
  have e1 : (2 * Real.sqrt v) ^ 2 = 4 * v := by
    rw [mul_pow, Real.sq_sqrt hv.le]
    norm_num
  rw [lt_div_iff₀ hs]
  constructor
  · intro h
    have h2 : (2 * Real.sqrt v) ^ 2 < |y| ^ 2 :=
      pow_lt_pow_left₀ h (by positivity) (by norm_num)
    rw [e1, sq_abs] at h2
    exact h2
  · intro h
    apply lt_of_pow_lt_pow_left₀ 2 (abs_nonneg y)
    rw [e1, sq_abs]
    exact h

/-- C3: the Z-score detector flags no region when the metric is constant
across regions (zero population standard deviation — NumPy produces NaN
z-scores there and `NaN > 2` is false, so the filter selects nothing and
nothing is divided by zero in the model); otherwise it flags exactly the
values whose distance to the mean exceeds twice the standard deviation,
i.e. `|value - mean| / √var > 2`. -/
theorem zscore_detector (l : List ℚ) :
    (popVar l = 0 → zscoreFlags l = []) ∧
    (popVar l ≠ 0 → ∀ x, x ∈ zscoreFlags l ↔ x ∈ l ∧
      2 < |(x : ℝ) - ((listMean l : ℚ) : ℝ)| /
        Real.sqrt ((popVar l : ℚ) : ℝ)) := by
  constructor
  · intro h
    simp [zscoreFlags, h]
  · intro h x
    have hpos : (0 : ℚ) < popVar l := lt_of_le_of_ne (popVar_nonneg l) (Ne.symm h)
    have hposR : (0 : ℝ) < ((popVar l : ℚ) : ℝ) := by exact_mod_cast hpos
    simp only [zscoreFlags, List.mem_filter, Bool.and_eq_true, decide_eq_true_eq]
    constructor
    · rintro ⟨hx, -, hlt⟩
      refine ⟨hx, ?_⟩
      rw [two_lt_abs_div_sqrt_iff hposR]
      exact_mod_cast hlt
    · rintro ⟨hx, hlt⟩
      refine ⟨hx, h, ?_⟩
      rw [two_lt_abs_div_sqrt_iff hposR] at hlt
      exact_mod_cast hlt

/-- Witness for `zscore_detector`: a constant series yields no flags, and a
series with one extreme value is characterized by the z-score condition. -/
theorem zscore_detector_witness :
    zscoreFlags [3, 3, 3] = [] ∧
    ((100 : ℚ) ∈ zscoreFlags [0, 0, 0, 0, 0, 100] ↔
      (100 : ℚ) ∈ ([0, 0, 0, 0, 0, 100] : List ℚ) ∧
      2 < |((100 : ℚ) : ℝ) - ((listMean [0, 0, 0, 0, 0, 100] : ℚ) : ℝ)| /
        Real.sqrt ((popVar [0, 0, 0, 0, 0, 100] : ℚ) : ℝ)) :=
  ⟨(zscore_detector [3, 3, 3]).1 (by norm_num [popVar, listMean]),
   (zscore_detector [0, 0, 0, 0, 0, 100]).2 (by norm_num [popVar, listMean]) 100⟩

instance : IsTotal (Region × ℚ) (fun a b => a.2 ≤ b.2) :=
  ⟨fun a b => le_total a.2 b.2⟩

instance : IsTrans (Region × ℚ) (fun a b => a.2 ≤ b.2) :=
  ⟨fun _ _ _ hab hbc => le_trans hab hbc⟩

/-- C9: `spatial_comparison` reports as underperforming
`max(3, int(0.1·N))` states with the smallest `total_bio` (so all `N`
states when `N < 3`, and at least 3 states whenever `N ≥ 3`, even when
10% of `N` is below 3); every reported total is at most every unreported
total. -/
theorem spatial_underperforming (rows : List BioRow) :
    (underperforming rows).length =
      min (max 3 (bottomTenPercent (stateTotalsBio rows).length))
        (stateTotalsBio rows).length ∧
    (3 ≤ (stateTotalsBio rows).length → 3 ≤ (underperforming rows).length) ∧
    ((stateTotalsBio rows).length < 3 →
      (underperforming rows).length = (stateTotalsBio rows).length) ∧
    ∃ rest, (underperforming rows ++ rest).Perm (stateTotalsBio rows) ∧
      ∀ a ∈ underperforming rows, ∀ b ∈ rest, a.2 ≤ b.2 := by
  set t := stateTotalsBio rows with ht
  set k := max 3 (bottomTenPercent t.length) with hk
  set s := t.insertionSort (fun a b => a.2 ≤ b.2) with hs
  have hperm : s.Perm t := List.perm_insertionSort _ t
  have hlen : s.length = t.length := hperm.length_eq
  have hu : underperforming rows = s.take k := rfl
  have hul : (underperforming rows).length = min k t.length := by
    rw [hu, List.length_take, hlen]
  refine ⟨hul, ?_, ?_, ?_⟩
  · intro h3
    rw [hul]
    exact le_min (le_max_left _ _) h3
  · intro h3
    rw [hul, hk]
    have hb : bottomTenPercent t.length = 0 := by
      unfold bottomTenPercent
      omega
    rw [hb]
    simp only [Nat.max_zero]
    exact Nat.min_eq_right (by omega)
  · refine ⟨s.drop k, ?_, ?_⟩
    · rw [hu, List.take_append_drop]
      exact hperm
    · have hsorted : s.Sorted (fun a b => a.2 ≤ b.2) :=
        List.sorted_insertionSort _ t
      have hp2 : List.Pairwise (fun (a : Region × ℚ) b => a.2 ≤ b.2)
          (s.take k ++ s.drop k) := by
        rw [List.take_append_drop]
        exact hsorted
      intro a ha b hb
      exact (List.pairwise_append.mp hp2).2.2 a (by rwa [hu] at ha) b hb

/-- Witness for `spatial_underperforming`: three distinct states give at
least 3 reported states; a single state gives exactly that one state. -/
theorem spatial_underperforming_witness :
    3 ≤ (underperforming [⟨1, 0, 0⟩, ⟨2, 0, 0⟩, ⟨3, 1, 2⟩]).length ∧
    (underperforming [⟨1, 0, 0⟩]).length =
      (stateTotalsBio [⟨1, 0, 0⟩]).length :=
  ⟨(spatial_underperforming [⟨1, 0, 0⟩, ⟨2, 0, 0⟩, ⟨3, 1, 2⟩]).2.1 (by decide),
   (spatial_underperforming [⟨1, 0, 0⟩]).2.2.1 (by decide)⟩

/-- C10: `trend_analysis` flags month `i` of a state's monthly `total_bio`
series exactly when the month-over-month percentage change exceeds `2.0`
or falls below `-0.5`; the first month, whose `pct_change` is NaN, is
never flagged (NaN comparisons are false). -/
theorem trend_abnormal_growth (series : List ℚ) :
    0 ∉ abnormalMonths series ∧
    ∀ i, 0 < i → i < series.length → series.getD (i - 1) 0 ≠ 0 →
      (i ∈ abnormalMonths series ↔
        (2 < (series.getD i 0 - series.getD (i - 1) 0) /
            series.getD (i - 1) 0 ∨
         (series.getD i 0 - series.getD (i - 1) 0) /
            series.getD (i - 1) 0 < -(1 / 2))) := by
  constructor
  · simp [abnormalMonths, growthRate, abnormalFlag]
  · intro i h0 hlen hprev
    simp only [abnormalMonths, List.mem_filter, List.mem_range]
    have hg : growthRate series i =
        .val ((series.getD i 0 - series.getD (i - 1) 0) /
          series.getD (i - 1) 0) := by
      unfold growthRate pctChange
      rw [if_neg (by omega), if_neg hprev]
    rw [hg]
    simp [abnormalFlag, hlen, decide_eq_true_eq]

/-- Witness for `trend_abnormal_growth`: a 400% jump in month 1. -/
theorem trend_abnormal_growth_witness :
    1 ∈ abnormalMonths [10, 50] ↔
      (2 < (([10, 50] : List ℚ).getD 1 0 - ([10, 50] : List ℚ).getD 0 0) /
          ([10, 50] : List ℚ).getD 0 0 ∨
       (([10, 50] : List ℚ).getD 1 0 - ([10, 50] : List ℚ).getD 0 0) /
          ([10, 50] : List ℚ).getD 0 0 < -(1 / 2)) :=
  (trend_abnormal_growth [10, 50]).2 1 (by decide) (by decide) (by simp)

theorem assocFind_eq_none {α : Type} {s : Region} {l : List (Region × α)}
    (h : s ∉ l.map Prod.fst) : assocFind s l = none := by
  induction l with
  | nil => rfl
  | cons p rest ih =>
    obtain ⟨k, v⟩ := p
    simp only [List.map_cons, List.mem_cons] at h
    push_neg at h
    simp only [assocFind]
    rw [if_neg (fun hk => h.1 hk.symm)]
    exact ih h.2

theorem bioAgg_keys (rows : List BioRow) :
    (bioAgg rows).map Prod.fst = keysOf BioRow.state rows := by
  unfold bioAgg
  rw [List.map_map]
  show List.map id (keysOf BioRow.state rows) = keysOf BioRow.state rows
  exact List.map_id _

theorem demoAgg_keys (rows : List DemoRow) :
    (demoAgg rows).map Prod.fst = keysOf DemoRow.state rows := by
  unfold demoAgg
  rw [List.map_map]
  show List.map id (keysOf DemoRow.state rows) = keysOf DemoRow.state rows
  exact List.map_id _

theorem enrollAgg_keys (rows : List EnrollRow) :
    (enrollAgg rows).map Prod.fst = keysOf EnrollRow.state rows := by
  unfold enrollAgg
  rw [List.map_map]
  show List.map id (keysOf EnrollRow.state rows) = keysOf EnrollRow.state rows
  exact List.map_id _

theorem mergedTable_states (bio : List BioRow) (demo : List DemoRow)
    (enroll : List EnrollRow) :
    (mergedTable bio demo enroll).map MergedRow.state =
      mergedStates bio demo enroll := by
  unfold mergedTable
  rw [List.map_map]
  show List.map id (mergedStates bio demo enroll) = mergedStates bio demo enroll
  exact List.map_id _

/-- C1: the merged region-indexed metric table contains exactly one row per
state appearing in at least one of the three datasets (its state column is
duplicate-free and its index is exactly the union of the datasets' state
sets), and the columns of a dataset in which a state is absent hold the
value zero, not a missing value. -/
theorem aggregation_zero_fill (bio : List BioRow) (demo : List DemoRow)
    (enroll : List EnrollRow) :
    ((mergedTable bio demo enroll).map MergedRow.state).Nodup ∧
    (∀ s, s ∈ (mergedTable bio demo enroll).map MergedRow.state ↔
      (s ∈ bio.map BioRow.state ∨ s ∈ demo.map DemoRow.state ∨
       s ∈ enroll.map EnrollRow.state)) ∧
    (∀ r ∈ mergedTable bio demo enroll,
      (r.state ∉ bio.map BioRow.state →
        r.bio_age_5_17 = 0 ∧ r.bio_age_17_ = 0) ∧
      (r.state ∉ demo.map DemoRow.state →
        r.demo_age_5_17 = 0 ∧ r.demo_age_17_ = 0) ∧
      (r.state ∉ enroll.map EnrollRow.state →
        r.age_0_5 = 0 ∧ r.age_5_17 = 0 ∧ r.age_18_greater = 0)) := by
  refine ⟨?_, ?_, ?_⟩
  · rw [mergedTable_states]
    exact List.nodup_dedup _
  · intro s
    rw [mergedTable_states]
    simp [mergedStates, keysOf]
  · intro r hr
    obtain ⟨s, hs, rfl⟩ := List.mem_map.mp hr
    refine ⟨?_, ?_, ?_⟩
    · intro hnotin
      have h1 : assocFind s (bioAgg bio) = none := by
        apply assocFind_eq_none
        rw [bioAgg_keys]
        simpa [keysOf] using hnotin
      exact ⟨by simp [h1], by simp [h1]⟩
    · intro hnotin
      have h1 : assocFind s (demoAgg demo) = none := by
        apply assocFind_eq_none
        rw [demoAgg_keys]
        simpa [keysOf] using hnotin
      exact ⟨by simp [h1], by simp [h1]⟩
    · intro hnotin
      have h1 : assocFind s (enrollAgg enroll) = none := by
        apply assocFind_eq_none
        rw [enrollAgg_keys]
        simpa [keysOf] using hnotin
      exact ⟨by simp [h1], by simp [h1], by simp [h1]⟩

/-- Witness for `aggregation_zero_fill`: a table built from one biometric
row and empty demographic/enrollment datasets zero-fills the demographic
and enrollment columns. -/
theorem aggregation_zero_fill_witness :
    (⟨1, 5, 7, 0, 0, 0, 0, 0⟩ : MergedRow).demo_age_5_17 = 0 ∧
    (⟨1, 5, 7, 0, 0, 0, 0, 0⟩ : MergedRow).age_0_5 = 0 := by
  have hm : mergedTable [⟨1, 5, 7⟩] [] [] = [⟨1, 5, 7, 0, 0, 0, 0, 0⟩] := by
    simp [mergedTable, mergedStates, keysOf, bioAgg, demoAgg, enrollAgg,
      colSum, assocFind, List.filter]
  have h := (aggregation_zero_fill [⟨1, 5, 7⟩] [] []).2.2
    ⟨1, 5, 7, 0, 0, 0, 0, 0⟩ (by rw [hm]; exact List.mem_singleton_self _)
  exact ⟨(h.2.1 (by simp)).1, (h.2.2 (by simp)).1⟩
